import Mathlib

/-!
# The command shell of `hw1/shell.c`

A shallow embedding of the dispatch and process-execution engine of the shell:
the builtin table and `lookup`, the prober `isExecutable`, the path resolver
`get_multiplePath` with `concat`, `copychar` and `freeMulPath`, and the
dispatch loop of `shell`.

Conventions of the embedding.

* A C string is a `String`; a `char *` that may be `NULL` is an
  `Option String`, `none` standing for `NULL`.
* The array a function receives from the tokenizer `get_toks` (declared in
  `parse.h`) is the `List String` of the tokens that precede its `NULL`
  sentinel, so `tokens[0]` is `tokens.head?`, `&tokens[1]` is `tokens.tail`
  and `*iter != NULL` holds exactly while tokens remain.
* The array `res` that `get_multiplePath` obtains from `malloc` is a list of
  `MAXTOKS` cells.  A cell is uninitialised until it is written; `malloc` is
  taken to succeed, as the source does.
* Behaviour the C standard leaves undefined (a `NULL` handed to `strlen`, an
  access outside an array, the read of an uninitialised cell) is `none` in a
  function result and the event `undefined` in a trace.
* The operating system is a record of oracles (`World`): the environment, the
  file status call, the outcome of `execv` and of `fork`, the working
  directory and whether standard input is a terminal.
-/

namespace Shell

/-! ## Data model -/

/-- One slot of an array of `tok_t`. -/
inductive Cell where
  | uninit
  | null
  | str (s : String)
  deriving DecidableEq, Repr

/-- The four builtin handlers declared at the top of `shell.c`. -/
inductive Handler where
  | cmd_help
  | cmd_quit
  | cmd_pwd
  | cmd_cd
  deriving DecidableEq, Repr

/-- The struct `fun_desc`: handler, command name, help text. -/
structure fun_desc where
  fn : Handler
  cmd : String
  doc : String
  deriving DecidableEq, Repr

/-- The table `cmd_table`. -/
def cmd_table : List fun_desc :=
  [ ⟨Handler.cmd_help, "?", "show this help menu"⟩,
    ⟨Handler.cmd_quit, "quit", "quit the command shell"⟩,
    ⟨Handler.cmd_pwd, "pwd", "show the current working directory"⟩,
    ⟨Handler.cmd_cd, "cd", "change the current directory to the specific one"⟩ ]

/-! ## Builtin lookup -/

/-- The `for` loop of `lookup`, entered at index `i` with the entries from `i`
on still to visit: `if (cmd && strcmp(cmd_table[i].cmd, cmd) == 0) return i;`
and `return -1` once the table is exhausted. -/
def lookupLoop (cmd : Option String) : Nat → List fun_desc → Int
  | _, [] => -1
  | i, e :: rest =>
    match cmd with
    | none => lookupLoop cmd (i + 1) rest
    | some c => if e.cmd = c then (i : Int) else lookupLoop cmd (i + 1) rest

/-- The function `lookup`. -/
def lookup (cmd : Option String) : Int :=
  lookupLoop cmd 0 cmd_table

/-! ## Executable prober -/

/-- The owner-execute permission bit of `sys/stat.h`. -/
def S_IXUSR : Nat := 0o100

/-- The function `isExecutable`: `stat(path, &stat_buf) == 0 &&
stat_buf.st_mode & S_IXUSR`.  The oracle `stat` gives the `st_mode` of a path
when the status call succeeds. -/
def isExecutable (stat : String → Option Nat) (path : String) : Bool :=
  match stat path with
  | some st_mode => (st_mode &&& S_IXUSR) != 0
  | none => false

/-! ## Path resolver -/

/-- The function `concat`: `s1`, one slash, `s2`. -/
def concat (s1 s2 : String) : String :=
  (s1 ++ "/") ++ s2

/-- The function `copychar`: a fresh copy of `s`. -/
def copychar (s : String) : String :=
  s

/-- The `while` loop of `get_multiplePath`.  `iter` is what remains of the
token array from the pointer `iter` on; each round stores
`concat(tokens[i - 1], filePath)` in `res[i]` and advances `i` and `iter`. -/
def pathLoop (tokens : List String) (filePath : String) :
    List String → Nat → List Cell → Option (List Cell)
  | [], _, res => some res
  | _ :: iter, i, res =>
    match tokens.get? (i - 1) with
    | none => none
    | some dir =>
      if i < res.length then
        pathLoop tokens filePath iter (i + 1) (res.set i (Cell.str (concat dir filePath)))
      else none

/-- The function `get_multiplePath`.  `MAXTOKS` and `get_toks` come from
`parse.h`; `val` is the result of `getenv("PATH")`. -/
def get_multiplePath (MAXTOKS : Nat) (get_toks : Option String → List String)
    (val : Option String) (filePath : Option String) : Option (List Cell) :=
  let tokens := get_toks val
  let res := List.replicate MAXTOKS Cell.uninit
  match filePath with
  | none => none
  | some fp =>
    if 0 < res.length then
      pathLoop tokens fp tokens 1 (res.set 0 (Cell.str (copychar fp)))
    else none

/-- The function `freeMulPath`: the strings released, in order, before the
array itself is released; `none` when the walk leaves the initialised part of
the array before it meets `NULL`. -/
def freeMulPath : List Cell → Option (List String)
  | [] => none
  | Cell.uninit :: _ => none
  | Cell.null :: _ => some []
  | Cell.str s :: iter => (freeMulPath iter).map (fun freed => s :: freed)

/-- Split a character sequence at the characters `sep` accepts, keeping the
non-empty pieces; `cur` is the piece being read, reversed. -/
def splitToks (sep : Char → Bool) : List Char → List Char → List String
  | [], cur => if cur = [] then [] else [String.mk cur.reverse]
  | c :: cs, cur =>
    if sep c then
      (if cur = [] then [] else [String.mk cur.reverse]) ++ splitToks sep cs []
    else splitToks sep cs (c :: cur)

/-- Modelled from the spec: the tokenizer `get_toks` of `parse.c`, which is not
among the sources.  It splits a line into the ordered sequence of its tokens,
at white space and at the `PATH` separator `:`; an absent or empty line has no
token. -/
def get_toks (line : Option String) : List String :=
  match line with
  | none => []
  | some s => splitToks (fun c => c.isWhitespace || c = ':') s.data []

/-! ## The operating system -/

/-- The oracles the shell consults.  `MAXTOKS` and `get_toks` belong to
`parse.h`; the rest is the process environment.  `fork k` and `getcwd k` are
the outcomes of the calls made while the `k`-th input line is processed. -/
structure World where
  MAXTOKS : Nat
  get_toks : Option String → List String
  PATH : Option String
  stat : String → Option Nat
  execv : String → List String → Bool
  fork : Nat → Bool
  getcwd : Nat → Option String
  isatty : Bool

/-- What the child process does, in order. -/
inductive ChildEvent where
  | resolve (filePath : Option String)
  | probe (path : String) (result : Bool)
  | execv (path : String) (argv : List String)
  | perror (msg : String)
  | exit (status : Nat)
  | undefined
  deriving DecidableEq, Repr

/-- What the shell process does, in order.  `fork (some t)` is a successful
`fork` whose child runs the trace `t`; `fork none` is a failed one. -/
inductive Event where
  | prompt (text : String)
  | freadln (line : Option String)
  | call (fn : Handler) (args : List String)
  | printf (text : String)
  | chdir (dir : Option String)
  | fork (child : Option (List ChildEvent))
  | waitpid
  | perror (msg : String)
  | exit (status : Nat)
  | undefined
  deriving DecidableEq, Repr

/-! ## Process launcher: the child -/

/-- The candidate loop of the child: `while ((*iter) != NULL)`, probe `*iter`
and call `execv(*iter, &tokens[0])` when the probe passes; `execv` returns only
when it failed, and then the loop goes on with `iter++`.  After the loop,
`perror` and `exit(1)`. -/
def launchLoop (w : World) (argv : List String) : List Cell → List ChildEvent
  | [] => [ChildEvent.undefined]
  | Cell.uninit :: _ => [ChildEvent.undefined]
  | Cell.null :: _ => [ChildEvent.perror "Command line not found\n", ChildEvent.exit 1]
  | Cell.str path :: iter =>
    if isExecutable w.stat path then
      ChildEvent.probe path true :: ChildEvent.execv path argv ::
        (if w.execv path argv then [] else launchLoop w argv iter)
    else ChildEvent.probe path false :: launchLoop w argv iter

/-- The branch `cpid == 0` of `shell`. -/
def child (w : World) (tokens : List String) : List ChildEvent :=
  ChildEvent.resolve tokens.head? ::
    match get_multiplePath w.MAXTOKS w.get_toks w.PATH tokens.head? with
    | none => [ChildEvent.undefined]
    | some filepath => launchLoop w tokens filepath

/-! ## Builtin handlers -/

/-- The body of a builtin handler called with `arg`, and whether it returns:
`cmd_help` prints one line per table entry, `cmd_quit` calls `exit(0)`,
`cmd_pwd` prints the working directory when `getcwd` succeeds, `cmd_cd` calls
`chdir(arg[0])`. -/
def handler (w : World) (k : Nat) : Handler → List String → List Event × Bool
  | Handler.cmd_help, _ =>
    (cmd_table.map (fun e => Event.printf (e.cmd ++ " - " ++ e.doc ++ "\n")), true)
  | Handler.cmd_quit, _ => ([Event.exit 0], false)
  | Handler.cmd_pwd, _ =>
    match w.getcwd k with
    | some cwd => ([Event.printf (cwd ++ "\n")], true)
    | none => ([], true)
  | Handler.cmd_cd, arg => ([Event.chdir arg.head?], true)

/-! ## Dispatch loop -/

/-- The body of the `while` loop of `shell` between `get_toks` and
`free_toks`, for the `k`-th line: the events of the shell process and whether
it reaches the end of the body.  The two releases at the end of the body leave
no event. -/
def dispatch (w : World) (k : Nat) (tokens : List String) : List Event × Bool :=
  let fundex := lookup tokens.head?
  if fundex ≥ 0 then
    match cmd_table.get? fundex.toNat with
    | some e =>
      let r := handler w k e.fn tokens.tail
      (Event.call e.fn tokens.tail :: r.1, r.2)
    | none => ([Event.undefined], false)
  else
    if w.fork k then ([Event.fork (some (child w tokens)), Event.waitpid], true)
    else ([Event.fork none, Event.perror "Fork failed", Event.exit 1], false)

/-- The increment `++line_num` of the 32-bit `int line_num`, wrapping at 2^31
as two-complement hardware does. -/
def int_succ (n : Int) : Int :=
  (n + 1 + 2 ^ 31) % 2 ^ 32 - 2 ^ 31

/-- The text of `fprintf(stdout, "%d: ", line_num)`. -/
def promptText (line_num : Int) : String :=
  toString line_num ++ ": "

/-- The `while` loop of `shell` over the lines still to come from standard
input; `k` counts the lines read so far.  `freadln` returns `NULL` at the end
of the input and `shell` returns. -/
def shellLoop (w : World) : List String → Nat → Int → List Event
  | [], _, _ => [Event.freadln none]
  | input_bytes :: rest, k, line_num =>
    let r := dispatch w k (w.get_toks (some input_bytes))
    Event.freadln (some input_bytes) :: (r.1 ++
      (if r.2 then
        (if w.isatty then
          Event.prompt (promptText (int_succ line_num)) :: shellLoop w rest (k + 1) (int_succ line_num)
         else shellLoop w rest (k + 1) line_num)
       else []))

/-- The function `shell` run on the lines of standard input.  Of `init_shell`
only the result of `isatty` matters here; its terminal set-up leaves no
event. -/
def shell (w : World) (lines : List String) : List Event :=
  if w.isatty then Event.prompt (promptText 0) :: shellLoop w lines 0 0
  else shellLoop w lines 0 0

/-- The events of the prompt protocol: a prompt written by `shell` and a call
of `freadln`. -/
def isPromptOrRead : Event → Bool
  | Event.prompt _ => true
  | Event.freadln _ => true
  | _ => false

/-- The events that end the shell process: a call of `exit`. -/
def isExit : Event → Bool
  | Event.exit _ => true
  | _ => false

/-! ## Example systems -/

/-- A system with the single `PATH` directory `/bin`, in which no file exists;
token arrays have `MAXTOKS` slots. -/
def bareWorld (MAXTOKS : Nat) : World :=
  { MAXTOKS := MAXTOKS
    get_toks := get_toks
    PATH := some "/bin"
    stat := fun _ => none
    execv := fun _ _ => false
    fork := fun _ => true
    getcwd := fun _ => none
    isatty := true }

/-- A system with `PATH=/D1:/D2` whose only file is the executable `/D2/X`. -/
def twoDirWorld : World :=
  { MAXTOKS := 100
    get_toks := get_toks
    PATH := some "/D1:/D2"
    stat := fun path => if path = "/D2/X" then some 0o100755 else none
    execv := fun path _ => path = "/D2/X"
    fork := fun _ => true
    getcwd := fun _ => some "/home"
    isatty := true }

/-- A system with `PATH=/bin` in which the working directory has a
subdirectory `X` (mode 040755, so its owner-execute bit is set, and `execv` on
it fails) and `/bin/X` is an executable file. -/
def shadowWorld : World :=
  { MAXTOKS := 100
    get_toks := get_toks
    PATH := some "/bin"
    stat := fun path =>
      if path = "X" then some 0o40755 else if path = "/bin/X" then some 0o100755 else none
    execv := fun path _ => path = "/bin/X"
    fork := fun _ => true
    getcwd := fun _ => some "/home"
    isatty := true }

/-! ## Builtin lookup: properties -/

theorem lookupLoop_none (i : Nat) (tbl : List fun_desc) : lookupLoop none i tbl = -1 := by
  induction tbl generalizing i with
  | nil => rfl
  | cons e rest ih => simp [lookupLoop, ih]

theorem lookupLoop_some (c : String) (i : Nat) (tbl : List fun_desc) :
    lookupLoop (some c) i tbl =
      match tbl.findIdx? (fun e => decide (e.cmd = c)) with
      | some j => ((i + j : Nat) : Int)
      | none => -1 := by
  induction tbl generalizing i with
  | nil => rfl
  | cons e rest ih =>
    by_cases h : e.cmd = c
    · simp [lookupLoop, List.findIdx?_cons, h]
    · simp only [lookupLoop, List.findIdx?_cons, h, if_false, decide_False, ih]
      cases hf : List.findIdx? (fun e => decide (e.cmd = c)) rest with
      | none => simp [hf]
      | some j => simp [hf]; ring

theorem lookupLoop_range (cmd : Option String) (i : Nat) (tbl : List fun_desc) :
    lookupLoop cmd i tbl = -1 ∨
      ∃ j, j < tbl.length ∧ lookupLoop cmd i tbl = ((i + j : Nat) : Int) := by
  induction tbl generalizing i with
  | nil => left; rfl
  | cons e rest ih =>
    cases cmd with
    | none => left; exact lookupLoop_none _ _
    | some c =>
      by_cases h : e.cmd = c
      · right; exact ⟨0, by simp, by simp [lookupLoop, h]⟩
      · rcases ih (i + 1) with h1 | ⟨j, hj, h1⟩
        · left; simp [lookupLoop, h, h1]
        · right; refine ⟨j + 1, by simp [hj], ?_⟩
          simp only [lookupLoop, h, if_false, h1]; push_cast; ring

theorem lookup_bound (cmd : Option String) (h : 0 ≤ lookup cmd) :
    (lookup cmd).toNat < cmd_table.length := by
  rcases lookupLoop_range cmd 0 cmd_table with h1 | ⟨j, hj, h1⟩
  · unfold lookup at h; rw [h1] at h; omega
  · unfold lookup; rw [h1]; simpa using hj

theorem lookup_of_entry (name : String) (i : Nat) (e : fun_desc)
    (hi : cmd_table.get? i = some e) (he : e.cmd = name) : lookup (some name) = (i : Int) := by
  subst he
  match i, hi with
  | 0, hi => simp [cmd_table] at hi; subst hi; decide
  | 1, hi => simp [cmd_table] at hi; subst hi; decide
  | 2, hi => simp [cmd_table] at hi; subst hi; decide
  | 3, hi => simp [cmd_table] at hi; subst hi; decide
  | n + 4, hi => simp [cmd_table] at hi

theorem lookup_no_entry (name : String) (hno : ∀ e ∈ cmd_table, e.cmd ≠ name) :
    lookup (some name) = -1 := by
  have h := lookupLoop_some name 0 cmd_table
  have hidx : cmd_table.findIdx? (fun e => decide (e.cmd = name)) = none := by
    rw [List.findIdx?_eq_none_iff]
    intro e he; simpa using hno e he
  simp [lookup, h, hidx]

/-- C2: `lookup` returns the index of the first entry of `cmd_table` whose
command string equals the name (`?` is 0, `quit` is 1, `pwd` is 2, `cd` is 3),
returns -1 for a null name and for a name that equals no entry, and a
non-negative result is a valid index into the table. -/
theorem lookup_first_match :
    lookup (some "?") = 0 ∧ lookup (some "quit") = 1 ∧
    lookup (some "pwd") = 2 ∧ lookup (some "cd") = 3 ∧
    lookup none = -1 ∧
    (∀ name : String, lookup (some name) =
      match cmd_table.findIdx? (fun e => decide (e.cmd = name)) with
      | some i => (i : Int)
      | none => -1) ∧
    (∀ (name : String) (i : Nat) (e : fun_desc),
      cmd_table.get? i = some e → e.cmd = name → lookup (some name) = (i : Int)) ∧
    (∀ name : String, (∀ e ∈ cmd_table, e.cmd ≠ name) → lookup (some name) = -1) ∧
    (∀ cmd : Option String, 0 ≤ lookup cmd → (lookup cmd).toNat < cmd_table.length) := by
  refine ⟨by decide, by decide, by decide, by decide, by decide, ?_,
    lookup_of_entry, lookup_no_entry, lookup_bound⟩
  intro name
  have h := lookupLoop_some name 0 cmd_table
  simpa [lookup] using h

/-- Witness for C2: the entry at index 3 is `cd`, `ls` equals no entry, and the
result for `pwd` is a valid index. -/
theorem lookup_first_match_witness :
    lookup (some "cd") = 3 ∧ lookup (some "ls") = -1 ∧
    (lookup (some "pwd")).toNat < cmd_table.length :=
  ⟨lookup_first_match.2.2.2.2.2.2.1 "cd" 3
      ⟨Handler.cmd_cd, "cd", "change the current directory to the specific one"⟩ rfl rfl,
   lookup_first_match.2.2.2.2.2.2.2.1 "ls" (by decide),
   lookup_first_match.2.2.2.2.2.2.2.2 (some "pwd") (by decide)⟩

/-! ## Executable prober: properties -/

theorem and_S_IXUSR (m : Nat) : (m &&& S_IXUSR != 0) = decide (m / 64 % 2 = 1) := by
  have h : S_IXUSR = 2 ^ 6 := by decide
  rw [h, Nat.and_two_pow, Nat.testBit_to_div_mod]
  by_cases hb : m / 2 ^ 6 % 2 = 1
  · have hb2 : m / 64 % 2 = 1 := by simpa using hb
    simp [hb2]
  · have hb2 : ¬ m / 64 % 2 = 1 := by simpa using hb
    simp [hb2]

theorem isExecutable_iff (stat : String → Option Nat) (path : String) :
    isExecutable stat path = true ↔ ∃ m, stat path = some m ∧ m / 64 % 2 = 1 := by
  unfold isExecutable
  cases h : stat path with
  | none => simp
  | some m => simp [and_S_IXUSR]

/-- C7: `isExecutable` is true exactly when the status lookup on the path
succeeds and bit 6 of the mode, the owner-execute bit `S_IXUSR`, is set; two
file systems whose modes for the path agree on that bit give the same answer,
whatever the other permission and file-type bits are. -/
theorem isExecutable_owner_bit :
    S_IXUSR = 2 ^ 6 ∧
    (∀ (stat : String → Option Nat) (path : String),
      isExecutable stat path = true ↔ ∃ m, stat path = some m ∧ m / 2 ^ 6 % 2 = 1) ∧
    (∀ (stat1 stat2 : String → Option Nat) (path : String) (m1 m2 : Nat),
      stat1 path = some m1 → stat2 path = some m2 → m1 / 2 ^ 6 % 2 = m2 / 2 ^ 6 % 2 →
      isExecutable stat1 path = isExecutable stat2 path) := by
  refine ⟨by decide, fun stat path => by simpa using isExecutable_iff stat path, ?_⟩
  intro stat1 stat2 path m1 m2 h1 h2 hbit
  have hbit2 : m1 / 64 % 2 = m2 / 64 % 2 := by simpa using hbit
  simp [isExecutable, h1, h2, and_S_IXUSR, hbit2]

/-- Witness for C7: mode 0644 has no owner-execute bit although mode 0655 has
the group and other execute bits, and the two are probed alike; mode 0100 is
executable. -/
theorem isExecutable_owner_bit_witness :
    isExecutable (fun _ => some 0o644) "f" = isExecutable (fun _ => some 0o655) "f" ∧
    (isExecutable (fun _ => some 0o100) "f" = true ↔
      ∃ m, (fun _ : String => some 0o100) "f" = some m ∧ m / 2 ^ 6 % 2 = 1) :=
  ⟨isExecutable_owner_bit.2.2 (fun _ => some 0o644) (fun _ => some 0o655) "f" 0o644 0o655
      rfl rfl (by decide),
   isExecutable_owner_bit.2.1 (fun _ => some 0o100) "f"⟩

/-! ## Path resolver: properties -/

theorem pathLoop_spec (fp : String) :
    ∀ (iter pre : List String) (written free : List Cell),
      written.length = pre.length + 1 → iter.length ≤ free.length →
      pathLoop (pre ++ iter) fp iter (pre.length + 1) (written ++ free) =
        some (written ++ iter.map (fun d => Cell.str (concat d fp)) ++ free.drop iter.length) := by
  intro iter
  induction iter with
  | nil => intro pre written free _ _; simp [pathLoop]
  | cons d iter ih =>
    intro pre written free hlen hcap
    cases free with
    | nil => simp at hcap
    | cons x free =>
      have hget : (pre ++ d :: iter).get? (pre.length + 1 - 1) = some d := by
        rw [Nat.add_sub_cancel, List.get?_eq_getElem?, List.getElem?_append_right (Nat.le_refl _)]
        simp
      have hlt : pre.length + 1 < (written ++ x :: free).length := by simp [hlen]
      have hset : (written ++ x :: free).set (pre.length + 1) (Cell.str (concat d fp)) =
          (written ++ [Cell.str (concat d fp)]) ++ free := by
        rw [List.set_append]; simp [hlen]
      have hstep := ih (pre ++ [d]) (written ++ [Cell.str (concat d fp)]) free
        (by simp [hlen]) (by simpa using hcap)
      rw [pathLoop, hget]
      simp only [hlt, if_true, hset]
      simpa using hstep

theorem get_multiplePath_spec (MAXTOKS : Nat) (get_toks : Option String → List String)
    (val : Option String) (c : String) (hcap : (get_toks val).length < MAXTOKS) :
    get_multiplePath MAXTOKS get_toks val (some c) =
      some (Cell.str c :: (get_toks val).map (fun d => Cell.str (concat d c)) ++
        List.replicate (MAXTOKS - ((get_toks val).length + 1)) Cell.uninit) := by
  obtain ⟨M, rfl⟩ : ∃ M, MAXTOKS = M + 1 := ⟨MAXTOKS - 1, by omega⟩
  have h := pathLoop_spec c (get_toks val) [] [Cell.str c] (List.replicate M Cell.uninit)
    (by simp) (by simp; omega)
  simp only [get_multiplePath, List.replicate_succ, List.set_cons_zero, copychar,
    List.length_cons, Nat.zero_lt_succ, if_true]
  simp only [List.nil_append, List.length_nil, Nat.zero_add, List.singleton_append] at h
  rw [h]
  simp

theorem get_multiplePath_overflow :
    get_multiplePath 2 (fun _ => ["/bin", "/usr/bin"]) (some "/bin:/usr/bin") (some "ls") =
      none := by
  decide

/-- C1: when `PATH` tokenizes into the directories `ds` and these fit the
`MAXTOKS` slots of a token array, `get_multiplePath` stores the bare command
name in slot 0 and, for the k-th directory in `PATH` order, the directory, one
slash and the name in slot k, repeated directories included; the remaining
slots are left as allocated. -/
theorem get_multiplePath_candidates (MAXTOKS : Nat) (get_toks : Option String → List String)
    (val : Option String) (c : String) (ds : List String)
    (htoks : get_toks val = ds) (hcap : ds.length < MAXTOKS) :
    get_multiplePath MAXTOKS get_toks val (some c) =
      some ((c :: ds.map (fun d => d ++ "/" ++ c)).map Cell.str ++
        List.replicate (MAXTOKS - (ds.length + 1)) Cell.uninit) := by
  subst htoks
  rw [get_multiplePath_spec MAXTOKS get_toks val c hcap]
  simp [concat, Function.comp_def]

/-- Witness for C1: `PATH` with a repeated directory and the command `ls`. -/
theorem get_multiplePath_candidates_witness :
    get_multiplePath 5 (fun _ => ["/bin", "/usr/bin", "/bin"]) (some "/bin:/usr/bin:/bin")
        (some "ls") =
      some ((["ls", "/bin/ls", "/usr/bin/ls", "/bin/ls"]).map Cell.str ++
        List.replicate 1 Cell.uninit) :=
  get_multiplePath_candidates 5 (fun _ => ["/bin", "/usr/bin", "/bin"])
    (some "/bin:/usr/bin:/bin") "ls" ["/bin", "/usr/bin", "/bin"] rfl (by decide)

/-- C6: with `PATH` unset or empty the only slot `get_multiplePath` fills is
slot 0, with the bare command name; no other entry is stored. -/
theorem get_multiplePath_no_PATH (MAXTOKS : Nat) (c : String) (hcap : 0 < MAXTOKS) :
    get_multiplePath MAXTOKS get_toks none (some c) =
      some (Cell.str c :: List.replicate (MAXTOKS - 1) Cell.uninit) ∧
    get_multiplePath MAXTOKS get_toks (some "") (some c) =
      some (Cell.str c :: List.replicate (MAXTOKS - 1) Cell.uninit) := by
  have h1 : get_toks none = [] := rfl
  have h2 : get_toks (some "") = [] := by decide
  constructor
  · rw [get_multiplePath_spec MAXTOKS get_toks none c (by rw [h1]; exact hcap), h1]; simp
  · rw [get_multiplePath_spec MAXTOKS get_toks (some "") c (by rw [h2]; exact hcap), h2]; simp

/-- Witness for C6: the command `ls` and an array of three slots. -/
theorem get_multiplePath_no_PATH_witness :
    get_multiplePath 3 get_toks none (some "ls") =
      some (Cell.str "ls" :: List.replicate (3 - 1) Cell.uninit) ∧
    get_multiplePath 3 get_toks (some "") (some "ls") =
      some (Cell.str "ls" :: List.replicate (3 - 1) Cell.uninit) :=
  get_multiplePath_no_PATH 3 "ls" (by decide)

theorem pathLoop_no_null (tokens : List String) (fp : String) :
    ∀ (iter : List String) (i : Nat) (res out : List Cell),
      Cell.null ∉ res → pathLoop tokens fp iter i res = some out → Cell.null ∉ out := by
  intro iter
  induction iter with
  | nil =>
    intro i res out hres h
    simp only [pathLoop, Option.some.injEq] at h
    exact h ▸ hres
  | cons d iter ih =>
    intro i res out hres h
    rw [pathLoop] at h
    cases hget : tokens.get? (i - 1) with
    | none => rw [hget] at h; cases h
    | some dir =>
      rw [hget] at h
      simp only at h
      by_cases hlt : i < res.length
      · simp only [hlt, if_true] at h
        refine ih (i + 1) _ out ?_ h
        intro hmem
        rcases List.mem_or_eq_of_mem_set hmem with h1 | h1
        · exact hres h1
        · cases h1
      · rw [if_neg hlt] at h; cases h

theorem get_multiplePath_no_null (MAXTOKS : Nat) (get_toks : Option String → List String)
    (val filePath : Option String) (out : List Cell)
    (h : get_multiplePath MAXTOKS get_toks val filePath = some out) : Cell.null ∉ out := by
  cases filePath with
  | none => cases h
  | some fp =>
    by_cases hlt : 0 < (List.replicate MAXTOKS Cell.uninit).length
    · have h2 : pathLoop (get_toks val) fp (get_toks val) 1
          ((List.replicate MAXTOKS Cell.uninit).set 0 (Cell.str (copychar fp))) = some out := by
        simpa only [get_multiplePath, hlt, if_true] using h
      refine pathLoop_no_null _ _ _ _ _ out ?_ h2
      intro hmem
      rcases List.mem_or_eq_of_mem_set hmem with h1 | h1
      · simp at h1
      · cases h1
    · have h2 : (none : Option (List Cell)) = some out := by
        simpa only [get_multiplePath, hlt, if_false] using h
      cases h2

theorem launchLoop_uninit (w : World) (argv : List String) (M : Nat) :
    launchLoop w argv (List.replicate M Cell.uninit) = [ChildEvent.undefined] := by
  cases M <;> simp [List.replicate, launchLoop]

theorem freeMulPath_uninit (M : Nat) : freeMulPath (List.replicate M Cell.uninit) = none := by
  cases M <;> simp [List.replicate, freeMulPath]

/-- C9, evaluated: with `PATH=/bin` and the command `ls`, in an array of any
size that holds both candidates, `get_multiplePath` writes slots 0 and 1 and
nothing else, so slot 2 is not the null sentinel; `freeMulPath` and the
candidate loop of the child walk past the two candidates into cells that were
never written. -/
theorem get_multiplePath_no_sentinel (M : Nat) :
    get_multiplePath (M + 2) (bareWorld (M + 2)).get_toks (some "/bin") (some "ls") =
      some (Cell.str "ls" :: Cell.str "/bin/ls" :: List.replicate M Cell.uninit) ∧
    (Cell.str "ls" :: Cell.str "/bin/ls" :: List.replicate M Cell.uninit).get? 2 ≠
      some Cell.null ∧
    freeMulPath (Cell.str "ls" :: Cell.str "/bin/ls" :: List.replicate M Cell.uninit) = none ∧
    child (bareWorld (M + 2)) ["ls"] =
      [ChildEvent.resolve (some "ls"), ChildEvent.probe "ls" false,
       ChildEvent.probe "/bin/ls" false, ChildEvent.undefined] := by
  have htoks : (bareWorld (M + 2)).get_toks (some "/bin") = ["/bin"] := by
    show get_toks (some "/bin") = ["/bin"]
    decide
  have hres : get_multiplePath (M + 2) (bareWorld (M + 2)).get_toks (some "/bin") (some "ls") =
      some (Cell.str "ls" :: Cell.str "/bin/ls" :: List.replicate M Cell.uninit) := by
    have h := get_multiplePath_spec (M + 2) (bareWorld (M + 2)).get_toks (some "/bin") "ls"
      (by rw [htoks]; simp)
    rw [h, htoks]
    simp [concat]
  refine ⟨hres, ?_, ?_, ?_⟩
  · cases M <;> simp [List.replicate]
  · simp [freeMulPath, freeMulPath_uninit]
  · have hw : get_multiplePath (bareWorld (M + 2)).MAXTOKS (bareWorld (M + 2)).get_toks
        (bareWorld (M + 2)).PATH (some "ls") =
        some (Cell.str "ls" :: Cell.str "/bin/ls" :: List.replicate M Cell.uninit) := hres
    simp only [child, List.head?, hw, launchLoop]
    simp [isExecutable, bareWorld, launchLoop_uninit]

/-! ## Process launcher: properties -/

theorem launchLoop_skip (w : World) (argv : List String) (pre : List String) (cells : List Cell)
    (hpre : ∀ q ∈ pre, isExecutable w.stat q = false) :
    launchLoop w argv (pre.map Cell.str ++ cells) =
      pre.map (fun q => ChildEvent.probe q false) ++ launchLoop w argv cells := by
  induction pre with
  | nil => rfl
  | cons q pre ih =>
    have hq : isExecutable w.stat q = false := hpre q (List.mem_cons_self _ _)
    have ih2 := ih (fun r hr => hpre r (List.mem_cons_of_mem _ hr))
    simp [launchLoop, hq, ih2]

theorem launchLoop_first (w : World) (argv : List String) (pre : List String) (p : String)
    (post : List Cell) (hpre : ∀ q ∈ pre, isExecutable w.stat q = false)
    (hp : isExecutable w.stat p = true) :
    launchLoop w argv (pre.map Cell.str ++ Cell.str p :: post) =
      pre.map (fun q => ChildEvent.probe q false) ++
        ChildEvent.probe p true :: ChildEvent.execv p argv ::
          (if w.execv p argv then [] else launchLoop w argv post) := by
  rw [launchLoop_skip w argv pre _ hpre, launchLoop]
  simp [hp]

/-- C4: in the child, whatever the candidate array and the prober answer, when
`p` is the first candidate that passes `isExecutable` the trace is: the failed
probes of the candidates before `p`, in order, then the successful probe of `p`
and `execv` on `p` with the whole token sequence as argv; later candidates are
reached only if that `execv` returns.  The second part is the same for the
array `get_multiplePath` builds from the command name `c` and the `PATH`
directories `ds`. -/
theorem child_first_match (w : World) (tokens : List String) :
    (∀ (pre : List String) (p : String) (post : List Cell),
      (∀ q ∈ pre, isExecutable w.stat q = false) → isExecutable w.stat p = true →
      launchLoop w tokens (pre.map Cell.str ++ Cell.str p :: post) =
        pre.map (fun q => ChildEvent.probe q false) ++
          ChildEvent.probe p true :: ChildEvent.execv p tokens ::
            (if w.execv p tokens then [] else launchLoop w tokens post)) ∧
    (∀ (c : String) (args ds pre : List String) (p : String) (post : List String),
      tokens = c :: args → w.get_toks w.PATH = ds → ds.length < w.MAXTOKS →
      c :: ds.map (fun d => d ++ "/" ++ c) = pre ++ p :: post →
      (∀ q ∈ pre, isExecutable w.stat q = false) → isExecutable w.stat p = true →
      child w tokens =
        ChildEvent.resolve (some c) :: (pre.map (fun q => ChildEvent.probe q false) ++
          ChildEvent.probe p true :: ChildEvent.execv p tokens ::
            (if w.execv p tokens then []
             else launchLoop w tokens (post.map Cell.str ++
               List.replicate (w.MAXTOKS - (ds.length + 1)) Cell.uninit)))) := by
  refine ⟨fun pre p post hpre hp => launchLoop_first w tokens pre p post hpre hp, ?_⟩
  intro c args ds pre p post htok hds hcap hsplit hpre hp
  subst htok
  subst hds
  have hres := get_multiplePath_spec w.MAXTOKS w.get_toks w.PATH c hcap
  have hcells : Cell.str c :: (w.get_toks w.PATH).map (fun d => Cell.str (concat d c)) ++
      List.replicate (w.MAXTOKS - ((w.get_toks w.PATH).length + 1)) Cell.uninit =
      pre.map Cell.str ++ Cell.str p :: (post.map Cell.str ++
        List.replicate (w.MAXTOKS - ((w.get_toks w.PATH).length + 1)) Cell.uninit) := by
    have h2 := congrArg (List.map Cell.str) hsplit
    simp only [List.map_cons, List.map_append, List.map_map] at h2
    have h3 : Cell.str c :: (w.get_toks w.PATH).map (fun d => Cell.str (concat d c)) =
        pre.map Cell.str ++ Cell.str p :: post.map Cell.str := h2
    rw [h3]
    simp
  rw [hcells] at hres
  simp only [child, List.head?, hres]
  rw [launchLoop_first w (c :: args) pre p _ hpre hp]

/-- Witness for C4: with `PATH=/D1:/D2` and `X` executable only in `/D2`, the
child probes `X` and `/D1/X`, which fail, before it probes and executes
`/D2/X` with argv `X arg`. -/
theorem child_first_match_witness :
    child twoDirWorld ["X", "arg"] =
      ChildEvent.resolve (some "X") ::
        ((["X", "/D1/X"]).map (fun q => ChildEvent.probe q false) ++
          ChildEvent.probe "/D2/X" true :: ChildEvent.execv "/D2/X" ["X", "arg"] ::
            (if twoDirWorld.execv "/D2/X" ["X", "arg"] then []
             else launchLoop twoDirWorld ["X", "arg"] ((([] : List String)).map Cell.str ++
               List.replicate (twoDirWorld.MAXTOKS - ((["/D1", "/D2"]).length + 1))
                 Cell.uninit))) :=
  (child_first_match twoDirWorld ["X", "arg"]).2 "X" ["arg"] ["/D1", "/D2"] ["X", "/D1/X"]
    "/D2/X" [] rfl (by decide) (by decide) (by decide) (by decide) (by decide)

theorem launchLoop_exhaust (w : World) (argv : List String) (cands : List String)
    (rest : List Cell)
    (hfail : ∀ p ∈ cands, isExecutable w.stat p = false ∨ w.execv p argv = false) :
    launchLoop w argv (cands.map Cell.str ++ Cell.null :: rest) =
      cands.flatMap (fun p =>
        if isExecutable w.stat p then [ChildEvent.probe p true, ChildEvent.execv p argv]
        else [ChildEvent.probe p false]) ++
      [ChildEvent.perror "Command line not found\n", ChildEvent.exit 1] := by
  induction cands with
  | nil => simp [launchLoop]
  | cons p cands ih =>
    have ih2 := ih (fun r hr => hfail r (List.mem_cons_of_mem _ hr))
    by_cases hp : isExecutable w.stat p = true
    · have hx : w.execv p argv = false := by
        rcases hfail p (List.mem_cons_self _ _) with h | h
        · rw [hp] at h; cases h
        · exact h
      simp only [List.map_cons, List.cons_append, launchLoop, hp, if_true, hx, ih2,
        List.flatMap_cons]
      simpa using ih2
    · have hp2 : isExecutable w.stat p = false := by simpa using hp
      simp only [List.map_cons, List.cons_append, launchLoop, hp2, ih2, List.flatMap_cons]
      simpa using ih2

theorem dispatch_external (w : World) (k : Nat) (tokens : List String)
    (hlook : lookup tokens.head? = -1) :
    dispatch w k tokens =
      if w.fork k then ([Event.fork (some (child w tokens)), Event.waitpid], true)
      else ([Event.fork none, Event.perror "Fork failed", Event.exit 1], false) := by
  simp [dispatch, hlook]

/-- C5, the counterexample: `X` is the first candidate that passes the prober
and `execv` fails on it, yet the child neither reports nor exits: it goes on
to probe `/bin/X` and replaces its image with it. -/
theorem child_retries_after_failed_execv :
    isExecutable shadowWorld.stat "X" = true ∧ shadowWorld.execv "X" ["X"] = false ∧
    child shadowWorld ["X"] =
      [ChildEvent.resolve (some "X"), ChildEvent.probe "X" true, ChildEvent.execv "X" ["X"],
       ChildEvent.probe "/bin/X" true, ChildEvent.execv "/bin/X" ["X"]] ∧
    ChildEvent.exit 1 ∉ child shadowWorld ["X"] := by
  decide

/-- C5, amended: over a null-terminated candidate array, when every candidate
either fails the prober or passes it and has its `execv` fail, the child probes
every candidate in order, attempts `execv` on each one that passes, and then
calls `perror` and `exit(1)`.  The shell process, whose lookup missed and whose
`fork` succeeded, records the child, waits for it, reaches the end of the loop
body and reads the next line. -/
theorem child_not_found (w : World) (tokens : List String) :
    (∀ (cands : List String) (rest : List Cell),
      (∀ p ∈ cands, isExecutable w.stat p = false ∨ w.execv p tokens = false) →
      launchLoop w tokens (cands.map Cell.str ++ Cell.null :: rest) =
        cands.flatMap (fun p =>
          if isExecutable w.stat p then [ChildEvent.probe p true, ChildEvent.execv p tokens]
          else [ChildEvent.probe p false]) ++
        [ChildEvent.perror "Command line not found\n", ChildEvent.exit 1]) ∧
    (∀ (k : Nat) (line : String) (rest : List String) (line_num : Int),
      w.get_toks (some line) = tokens → lookup tokens.head? = -1 → w.fork k = true →
      dispatch w k tokens = ([Event.fork (some (child w tokens)), Event.waitpid], true) ∧
      shellLoop w (line :: rest) k line_num =
        Event.freadln (some line) :: Event.fork (some (child w tokens)) :: Event.waitpid ::
          (if w.isatty then
            Event.prompt (promptText (int_succ line_num)) ::
              shellLoop w rest (k + 1) (int_succ line_num)
           else shellLoop w rest (k + 1) line_num)) := by
  refine ⟨fun cands rest hfail => launchLoop_exhaust w tokens cands rest hfail, ?_⟩
  intro k line rest line_num htoks hlook hfork
  have hd : dispatch w k tokens =
      ([Event.fork (some (child w tokens)), Event.waitpid], true) := by
    rw [dispatch_external w k tokens hlook, hfork]; rfl
  refine ⟨hd, ?_⟩
  rw [shellLoop]
  simp only [htoks, hd]
  simp

/-- Witness for C5: in a system without files no candidate passes the prober,
and a directory `X` passes it but cannot be executed; the shell that ran
`nothere` goes on to the next line. -/
theorem child_not_found_witness :
    launchLoop (bareWorld 100) ["nothere"]
        ((["nothere", "/bin/nothere"]).map Cell.str ++ Cell.null :: []) =
      (["nothere", "/bin/nothere"]).flatMap (fun p =>
        if isExecutable (bareWorld 100).stat p then
          [ChildEvent.probe p true, ChildEvent.execv p ["nothere"]]
        else [ChildEvent.probe p false]) ++
      [ChildEvent.perror "Command line not found\n", ChildEvent.exit 1] ∧
    (dispatch (bareWorld 100) 0 ["nothere"] =
        ([Event.fork (some (child (bareWorld 100) ["nothere"])), Event.waitpid], true) ∧
      shellLoop (bareWorld 100) ("nothere" :: ["pwd"]) 0 0 =
        Event.freadln (some "nothere") ::
          Event.fork (some (child (bareWorld 100) ["nothere"])) :: Event.waitpid ::
          (if (bareWorld 100).isatty then
            Event.prompt (promptText (int_succ 0)) ::
              shellLoop (bareWorld 100) ["pwd"] (0 + 1) (int_succ 0)
           else shellLoop (bareWorld 100) ["pwd"] (0 + 1) 0)) :=
  ⟨(child_not_found (bareWorld 100) ["nothere"]).1 ["nothere", "/bin/nothere"] []
      (by decide),
   (child_not_found (bareWorld 100) ["nothere"]).2 0 "nothere" ["pwd"] 0
      (by decide) (by decide) (by decide)⟩

/-! ## Dispatch loop: properties -/

theorem lookup_neg (cmd : Option String) (h : ¬ lookup cmd ≥ 0) : lookup cmd = -1 := by
  rcases lookupLoop_range cmd 0 cmd_table with h1 | ⟨j, _, h1⟩
  · exact h1
  · exfalso; apply h; unfold lookup; rw [h1]; exact Int.ofNat_nonneg _

theorem handler_no_fork (w : World) (k : Nat) (fn : Handler) (args : List String)
    (t : Option (List ChildEvent)) : Event.fork t ∉ (handler w k fn args).1 := by
  cases fn with
  | cmd_help => simp [handler]
  | cmd_quit => simp [handler]
  | cmd_pwd => unfold handler; cases w.getcwd k <;> simp
  | cmd_cd => simp [handler]

theorem dispatch_of_entry (w : World) (k : Nat) (name : String) (args : List String)
    (i : Nat) (e : fun_desc) (hi : cmd_table.get? i = some e) (he : e.cmd = name) :
    dispatch w k (name :: args) =
      (Event.call e.fn args :: (handler w k e.fn args).1, (handler w k e.fn args).2) := by
  have hl : lookup (some name) = (i : Int) := lookup_of_entry name i e hi he
  have hge : (i : Int) ≥ 0 := Int.ofNat_nonneg _
  simp only [dispatch, List.head?, hl, hge, if_true, Int.toNat_ofNat, hi, List.tail]

theorem dispatch_fork_lookup (w : World) (k : Nat) (tokens : List String)
    (t : Option (List ChildEvent)) (h : Event.fork t ∈ (dispatch w k tokens).1) :
    lookup tokens.head? = -1 := by
  by_cases hge : lookup tokens.head? ≥ 0
  · exfalso
    unfold dispatch at h
    simp only [hge, if_true] at h
    cases hg : cmd_table.get? (lookup tokens.head?).toNat with
    | none => rw [hg] at h; simp at h
    | some e =>
      rw [hg] at h
      simp only [List.mem_cons] at h
      rcases h with h | h
      · cases h
      · exact handler_no_fork w k e.fn tokens.tail t h
  · exact lookup_neg _ hge

/-- C3: when the first token is the name of the entry `e` of `cmd_table`, the
loop body calls the handler of `e` with the tokens after the first, performs
what that handler does and nothing else: its events hold no `fork`, hence no
child, no candidate resolution and no `execv`.  A `fork` occurs in a loop body
only when `lookup` returned -1. -/
theorem dispatch_builtin (w : World) (k : Nat) :
    (∀ (name : String) (args : List String) (i : Nat) (e : fun_desc),
      cmd_table.get? i = some e → e.cmd = name →
      dispatch w k (name :: args) =
        (Event.call e.fn args :: (handler w k e.fn args).1, (handler w k e.fn args).2) ∧
      ∀ t, Event.fork t ∉ (dispatch w k (name :: args)).1) ∧
    (∀ (tokens : List String) (t : Option (List ChildEvent)),
      Event.fork t ∈ (dispatch w k tokens).1 → lookup tokens.head? = -1) := by
  refine ⟨?_, fun tokens t h => dispatch_fork_lookup w k tokens t h⟩
  intro name args i e hi he
  refine ⟨dispatch_of_entry w k name args i e hi he, ?_⟩
  intro t hmem
  rw [dispatch_of_entry w k name args i e hi he] at hmem
  simp only [List.mem_cons] at hmem
  rcases hmem with h | h
  · cases h
  · exact handler_no_fork w k e.fn args t h

/-- Witness for C3: the line `cd /tmp` calls `cmd_cd` with `/tmp` and nothing
else happens; the line `X` forks, and `lookup` misses `X`. -/
theorem dispatch_builtin_witness :
    (dispatch twoDirWorld 0 ("cd" :: ["/tmp"]) =
        (Event.call Handler.cmd_cd ["/tmp"] ::
          (handler twoDirWorld 0 Handler.cmd_cd ["/tmp"]).1,
         (handler twoDirWorld 0 Handler.cmd_cd ["/tmp"]).2) ∧
      ∀ t, Event.fork t ∉ (dispatch twoDirWorld 0 ("cd" :: ["/tmp"])).1) ∧
    lookup (["X"] : List String).head? = -1 :=
  ⟨(dispatch_builtin twoDirWorld 0).1 "cd" ["/tmp"] 3
      ⟨Handler.cmd_cd, "cd", "change the current directory to the specific one"⟩ rfl rfl,
   (dispatch_builtin twoDirWorld 0).2 ["X"] (some (child twoDirWorld ["X"])) (by decide)⟩

/-- C10: for a line without tokens `tokens[0]` is null, `lookup` returns -1
and the loop body takes the external branch: it calls `fork`, and the child it
creates calls `get_multiplePath` with the null name, which hands the null
pointer to `copychar`. -/
theorem dispatch_empty_line (w : World) (k : Nat) :
    lookup ([] : List String).head? = -1 ∧
    dispatch w k [] =
      (if w.fork k then ([Event.fork (some (child w [])), Event.waitpid], true)
       else ([Event.fork none, Event.perror "Fork failed", Event.exit 1], false)) ∧
    child w [] = [ChildEvent.resolve none, ChildEvent.undefined] ∧
    get_multiplePath w.MAXTOKS w.get_toks w.PATH none = none := by
  refine ⟨by decide, dispatch_external w k [] (by decide), ?_, rfl⟩
  simp [child, get_multiplePath]

/-! ## Prompt protocol -/

theorem handler_filter (w : World) (k : Nat) (fn : Handler) (args : List String) :
    (handler w k fn args).1.filter isPromptOrRead = [] := by
  cases fn with
  | cmd_help => simp [handler, cmd_table, isPromptOrRead]
  | cmd_quit => simp [handler, isPromptOrRead]
  | cmd_pwd => unfold handler; cases w.getcwd k <;> simp [isPromptOrRead]
  | cmd_cd => simp [handler, isPromptOrRead]

theorem handler_stop (w : World) (k : Nat) (fn : Handler) (args : List String)
    (h : (handler w k fn args).2 = false) :
    ∃ ev ∈ (handler w k fn args).1, isExit ev = true := by
  cases fn with
  | cmd_help => simp [handler] at h
  | cmd_quit => exact ⟨Event.exit 0, by simp [handler], rfl⟩
  | cmd_pwd => unfold handler at h; cases hc : w.getcwd k <;> simp [hc] at h
  | cmd_cd => simp [handler] at h

theorem dispatch_cases (w : World) (k : Nat) (tokens : List String) :
    (∃ e : fun_desc, dispatch w k tokens =
      (Event.call e.fn tokens.tail :: (handler w k e.fn tokens.tail).1,
        (handler w k e.fn tokens.tail).2)) ∨
    dispatch w k tokens = ([Event.fork (some (child w tokens)), Event.waitpid], true) ∨
    dispatch w k tokens =
      ([Event.fork none, Event.perror "Fork failed", Event.exit 1], false) := by
  by_cases hge : lookup tokens.head? ≥ 0
  · left
    have hb := lookup_bound tokens.head? hge
    cases hg : cmd_table.get? (lookup tokens.head?).toNat with
    | none =>
      rw [List.get?_eq_none] at hg
      omega
    | some e => exact ⟨e, by simp only [dispatch, hge, if_true, hg]⟩
  · right
    rw [dispatch_external w k tokens (lookup_neg _ hge)]
    cases w.fork k <;> simp

theorem dispatch_filter (w : World) (k : Nat) (tokens : List String) :
    (dispatch w k tokens).1.filter isPromptOrRead = [] := by
  rcases dispatch_cases w k tokens with ⟨e, h⟩ | h | h
  · rw [h]; simp [List.filter_cons, isPromptOrRead, handler_filter]
  · rw [h]; simp [isPromptOrRead]
  · rw [h]; simp [isPromptOrRead]

theorem dispatch_stop (w : World) (k : Nat) (tokens : List String)
    (hstop : (dispatch w k tokens).2 = false) :
    ∃ ev ∈ (dispatch w k tokens).1, isExit ev = true := by
  rcases dispatch_cases w k tokens with ⟨e, h⟩ | h | h
  · rw [h] at hstop ⊢
    obtain ⟨ev, hev, hx⟩ := handler_stop w k e.fn tokens.tail hstop
    exact ⟨ev, List.mem_cons_of_mem _ hev, hx⟩
  · rw [h] at hstop; cases hstop
  · rw [h]; exact ⟨Event.exit 1, by simp, rfl⟩

theorem int_succ_of_lt (m : Nat) (h : m + 1 < 2 ^ 31) : int_succ (m : Int) = ((m + 1 : Nat) : Int) := by
  unfold int_succ
  push_cast
  omega

theorem promptText_nat (m : Nat) : promptText (m : Int) = toString m ++ ": " := rfl

theorem shellLoop_prompts (w : World) (htty : w.isatty = true) :
    ∀ (lines : List String) (k m : Nat), m + lines.length < 2 ^ 31 →
      (∀ ev ∈ shellLoop w lines k (m : Int), isExit ev = false) →
      Event.prompt (promptText (m : Int)) ::
          (shellLoop w lines k (m : Int)).filter isPromptOrRead =
        (List.range (lines.length + 1)).flatMap (fun j =>
          [Event.prompt (toString (m + j) ++ ": "), Event.freadln (lines.get? j)]) := by
  intro lines
  induction lines with
  | nil =>
    intro k m _ _
    simp [shellLoop, isPromptOrRead, promptText_nat, List.range_succ]
  | cons l ls ih =>
    intro k m hlen hrun
    have hm : m + 1 < 2 ^ 31 := by simp only [List.length_cons] at hlen; omega
    have hcont : (dispatch w k (w.get_toks (some l))).2 = true := by
      by_contra hc
      have hc2 : (dispatch w k (w.get_toks (some l))).2 = false := by simpa using hc
      obtain ⟨ev, hev, hx⟩ := dispatch_stop w k _ hc2
      have := hrun ev (by rw [shellLoop]; simp [hev])
      rw [hx] at this; cases this
    have hloop : shellLoop w (l :: ls) k (m : Int) =
        Event.freadln (some l) :: ((dispatch w k (w.get_toks (some l))).1 ++
          Event.prompt (promptText ((m + 1 : Nat) : Int)) ::
            shellLoop w ls (k + 1) ((m + 1 : Nat) : Int)) := by
      rw [shellLoop]
      simp only [hcont, htty, if_true, int_succ_of_lt m hm]
    have hrest := ih (k + 1) (m + 1) (by simp only [List.length_cons] at hlen; omega)
      (by
        intro ev hev
        apply hrun ev
        rw [hloop]
        exact List.mem_cons_of_mem _ (List.mem_append_right _ (List.mem_cons_of_mem _ hev)))
    rw [hloop]
    simp only [List.filter_cons, isPromptOrRead, if_true, List.filter_append,
      dispatch_filter, List.nil_append, hrest, List.length_cons]
    rw [List.range_succ_eq_map (ls.length + 1), List.flatMap_cons, List.flatMap_map]
    simp [promptText_nat, Nat.add_assoc, Nat.add_comm 1]

/-- C8: in interactive mode, when the shell works through an input of fewer
than 2^31 lines (the range of the `int` counter) without a call of `exit`, its
prompts and reads alternate, prompt first: prompt `0: `, read of line 0,
prompt `1: `, read of line 1, and so on up to prompt `n: ` and the read that
meets the end of the input, whatever each line ran. -/
theorem shell_prompts (w : World) (lines : List String) (htty : w.isatty = true)
    (hlen : lines.length < 2 ^ 31) (hrun : ∀ ev ∈ shell w lines, isExit ev = false) :
    (shell w lines).filter isPromptOrRead =
      (List.range (lines.length + 1)).flatMap (fun j =>
        [Event.prompt (toString j ++ ": "), Event.freadln (lines.get? j)]) := by
  have hshell : shell w lines = Event.prompt (promptText 0) :: shellLoop w lines 0 0 := by
    simp [shell, htty]
  have h := shellLoop_prompts w htty lines 0 0 (by simpa using hlen)
    (by
      intro ev hev
      apply hrun ev
      rw [hshell]
      exact List.mem_cons_of_mem _ hev)
  rw [hshell, List.filter_cons]
  simp only [isPromptOrRead, if_true]
  simpa using h

/-- Witness for C8: a builtin line and an external line. -/
theorem shell_prompts_witness :
    (shell twoDirWorld ["pwd", "X arg"]).filter isPromptOrRead =
      (List.range ((["pwd", "X arg"]).length + 1)).flatMap (fun j =>
        [Event.prompt (toString j ++ ": "), Event.freadln ((["pwd", "X arg"]).get? j)]) :=
  shell_prompts twoDirWorld ["pwd", "X arg"] rfl (by decide) (by decide)

end Shell
